import Mathlib

/-!
Verification development for the WhatsApp chat-archive viewer
(`src/app/page.tsx`).  Strings are modelled as `List Char`; JavaScript
regular-expression matching is embedded as executable backtracking
matchers specialised to the two regexes the source uses; the mutable
React component state is modelled as an explicit `AppState` record with
the event handlers as state-transition functions.
-/

namespace ZipViewer

/-- Shorthand turning a string literal into the `List Char` representation
used throughout the development. -/
def strL (s : String) : List Char := s.data

/-- ASCII lower-casing of one character, as `String.prototype.toLowerCase`
acts on the ASCII range (the only range the source's filenames and
markers exercise). -/
def lcChar (c : Char) : Char :=
  if 'A' ≤ c ∧ c ≤ 'Z' then Char.ofNat (c.toNat + 32) else c

/-- `toLowerCase` on a whole string. -/
def lcList (cs : List Char) : List Char := cs.map lcChar

/-- Case-insensitive character equality (the `i` regex flag). -/
def lcEq (a b : Char) : Bool := lcChar a = lcChar b

/-- JavaScript `\s` / `String.prototype.trim` whitespace class. -/
def wsChar (c : Char) : Bool :=
  c = ' ' ∨ c = '\t' ∨ c = '\n' ∨ c = '\r' ∨ c = '\x0b' ∨ c = '\x0c' ∨
  c.toNat = 0xa0 ∨ c.toNat = 0x1680 ∨
  (0x2000 ≤ c.toNat ∧ c.toNat ≤ 0x200a) ∨
  c.toNat = 0x2028 ∨ c.toNat = 0x2029 ∨ c.toNat = 0x202f ∨
  c.toNat = 0x205f ∨ c.toNat = 0x3000 ∨ c.toNat = 0xfeff

/-- JavaScript regex `.` (without the `s` flag): any character except a
line terminator. -/
def dotChar (c : Char) : Bool :=
  ¬ (c = '\n' ∨ c = '\r' ∨ c.toNat = 0x2028 ∨ c.toNat = 0x2029)

/-- `String.prototype.trim`. -/
def trimChars (cs : List Char) : List Char :=
  ((cs.dropWhile wsChar).reverse.dropWhile wsChar).reverse

/-- `needle` occurs at the very start of `hay`. -/
def startsWithList : List Char → List Char → Bool
  | [], _ => true
  | _ :: _, [] => false
  | a :: as, b :: bs => a = b && startsWithList as bs

/-- `String.prototype.includes`: `needle` occurs somewhere in `hay`. -/
def includesList (hay needle : List Char) : Bool :=
  if startsWithList needle hay then true
  else
    match hay with
    | [] => false
    | _ :: t => includesList t needle

/-- `String.prototype.split('.')`. -/
def splitDot : List Char → List (List Char)
  | [] => [[]]
  | c :: cs =>
    if c = '.' then [] :: splitDot cs
    else
      match splitDot cs with
      | h :: t => (c :: h) :: t
      | [] => [[c]]

/-- `filename.split('.').pop()`: the final `.`-separated component. -/
def lastDotComponent (cs : List Char) : List Char :=
  (splitDot cs).getLastD []

/-- The `Attachment['type']` union. -/
inductive AttachType where
  | image
  | video
  | document
  | sticker
  | audio
deriving DecidableEq

/-- The `Attachment` interface.  Blob URLs are opaque handles, modelled
as natural numbers issued by a counter. -/
structure Attachment where
  name : List Char
  type : AttachType
  blobUrl : Nat
  size : Nat
  thumbnailUrl : Option Nat
deriving DecidableEq

/-- `getAttachmentType` from the source: extension lookup (after
lower-casing the part following the last dot), then the "sticker"
substring fallback, then `document`. -/
def getAttachmentType (filename : List Char) : AttachType :=
  let ext := lcList (lastDotComponent filename)
  if ext ∈ [strL "jpg", strL "jpeg", strL "png", strL "gif", strL "webp"] then .image
  else if ext ∈ [strL "mp4", strL "avi", strL "mov", strL "webm", strL "mkv"] then .video
  else if ext ∈ [strL "mp3", strL "wav", strL "ogg", strL "m4a"] then .audio
  else if includesList (lcList filename) (strL "sticker") then .sticker
  else .document

/-- `classify(filename)` written from the spec's words (§4.2): a pure
function of the case-insensitive filename extension with precedence
image → video → audio, else the case-insensitive "sticker" substring
check, else `document`. -/
def specClassify (filename : List Char) : AttachType :=
  let ext := lcList (lastDotComponent filename)
  if ext ∈ [strL "jpg", strL "jpeg", strL "png", strL "gif", strL "webp"] then .image
  else if ext ∈ [strL "mp4", strL "avi", strL "mov", strL "webm", strL "mkv"] then .video
  else if ext ∈ [strL "mp3", strL "wav", strL "ogg", strL "m4a"] then .audio
  else if includesList (lcList filename) (strL "sticker") then .sticker
  else .document

/-- One parsed transcript entry (the `Message` interface). -/
structure Message where
  date : List Char
  time : List Char
  sender : List Char
  text : List Char
  attachment : Option Attachment
deriving DecidableEq

/-- The three capture groups of the header regex: date, time, sender. -/
structure Header where
  date : List Char
  time : List Char
  sender : List Char
deriving DecidableEq

/-- Lazy `(.*?)` followed by a continuation: the backtracking engine
tries group lengths in increasing order, each group character matching
regex `.`; `acc` holds the group read so far, reversed. -/
def lazyDotAux (k : List Char → List Char → Option α) :
    List Char → List Char → Option α
  | acc, cs =>
    match k acc.reverse cs with
    | some r => some r
    | none =>
      match cs with
      | [] => none
      | c :: cs' => if dotChar c then lazyDotAux k (c :: acc) cs' else none

/-- Greedy `\s*` followed by a continuation: consume as much whitespace
as possible, backtracking one character at a time on failure. -/
def greedyWs (k : List Char → Option α) : List Char → Option α
  | [] => k []
  | c :: cs =>
    if wsChar c then
      match greedyWs k cs with
      | some r => some r
      | none => k (c :: cs)
    else k (c :: cs)

/-- Try to match the header regex `\[(.*?),\s*(.*?)\]\s*(.*?):\s*`
anchored at the start of `cs`; on success return the three capture
groups and the input remaining after the match (the trailing `\s*` is
greedy and final, so it simply takes the maximal whitespace run). -/
def matchHeaderAt : List Char → Option (Header × List Char)
  | '[' :: cs =>
    lazyDotAux (fun g1 r1 =>
      match r1 with
      | ',' :: r2 =>
        greedyWs (fun r3 =>
          lazyDotAux (fun g2 r4 =>
            match r4 with
            | ']' :: r5 =>
              greedyWs (fun r6 =>
                lazyDotAux (fun g3 r7 =>
                  match r7 with
                  | ':' :: r8 => some ((⟨g1, g2, g3⟩ : Header), r8.dropWhile wsChar)
                  | _ => none) [] r6) r5
            | _ => none) [] r3) r2
      | _ => none) [] cs
  | _ => none

/-- `messageRegex.exec` scanning: find the leftmost header match,
returning the characters before it, its capture groups, and the
characters after it (text position `lastIndex`). -/
def findMatchSplit (cs : List Char) : Option (List Char × Header × List Char) :=
  match matchHeaderAt cs with
  | some (h, rest) => some ([], h, rest)
  | none =>
    match cs with
    | [] => none
    | c :: cs' => (findMatchSplit cs').map (fun p => (c :: p.1, p.2.1, p.2.2))

/-- Case-insensitive literal match anchored at the start of the input;
returns the remaining input. -/
def matchLitCI : List Char → List Char → Option (List Char)
  | [], cs => some cs
  | _ :: _, [] => none
  | p :: ps, c :: cs => if lcEq p c then matchLitCI ps cs else none

/-- Continuation of `lazyGroupGt` once the group holds at least one
character (`acc` nonempty, reversed): prefer closing on `>` now, else
extend the group by one more `.`-character. -/
def lazyGroupGtAux (acc : List Char) : List Char → Option (List Char × List Char)
  | '>' :: cs => some (acc.reverse, cs)
  | c :: cs => if dotChar c then lazyGroupGtAux (c :: acc) cs else none
  | [] => none

/-- Lazy `(.+?)` followed by a literal `>`: the group must take at least
one `.`-character (even a `>`) before the first attempt to close, then
extends one character at a time, preferring the earliest closing `>`. -/
def lazyGroupGt : List Char → Option (List Char × List Char)
  | c :: cs => if dotChar c then lazyGroupGtAux [c] cs else none
  | [] => none

/-- Try the attachment-marker regex `<attached: (.+?)>|<Media omitted>`
(with the `i` flag) anchored at the start of `cs`: on success return the
matched length and the optional first capture group.  The first
alternative is preferred, as in the JavaScript engine. -/
def matchAttachAt (cs : List Char) : Option (Nat × Option (List Char)) :=
  match matchLitCI (strL "<attached: ") cs with
  | some r1 =>
    match lazyGroupGt r1 with
    | some (g, r2) => some (cs.length - r2.length, some g)
    | none =>
      (matchLitCI (strL "<Media omitted>") cs).map
        (fun r => (cs.length - r.length, none))
  | none =>
    (matchLitCI (strL "<Media omitted>") cs).map
      (fun r => (cs.length - r.length, none))

/-- `msgText.match(/<attached: (.+?)>|<Media omitted>/i)`: leftmost
occurrence, returning its position, length and capture group. -/
def findAttach (cs : List Char) : Option (Nat × Nat × Option (List Char)) :=
  match matchAttachAt cs with
  | some (n, g) => some (0, n, g)
  | none =>
    match cs with
    | [] => none
    | _ :: t => (findAttach t).map (fun p => (p.1 + 1, p.2.1, p.2.2))

/-- `String.prototype.replace` with a plain-string pattern: remove the
first occurrence of `target` (replacement string is empty in the
source). -/
def replaceFirst (hay target : List Char) : List Char :=
  if startsWithList target hay then hay.drop target.length
  else
    match hay with
    | [] => []
    | c :: t => c :: replaceFirst t target

/-- The attachment map `Map<string, Attachment>`, in insertion order. -/
def AttachmentMap := List (List Char × Attachment)

/-- `Map.prototype.get` (with `has` being `isSome` of this). -/
def lookupMap : AttachmentMap → List Char → Option Attachment
  | [], _ => none
  | (k, v) :: t, key => if k = key then some v else lookupMap t key

/-- `Map.prototype.set`: overwrite an existing key, else append. -/
def setMap (m : AttachmentMap) (k : List Char) (v : Attachment) : AttachmentMap :=
  match m with
  | [] => [(k, v)]
  | (k', v') :: t => if k' = k then (k, v) :: t else (k', v') :: setMap t k v

/-- The per-message body handling of `parseMessages`: given the trimmed
body `msgText`, look for an attachment marker; if an explicit filename
is captured, is truthy and resolves in the map, attach it and strip the
marker (re-trimming); otherwise keep `msgText` unchanged. -/
def resolveBody (msgText : List Char) (map : AttachmentMap) :
    List Char × Option Attachment :=
  match findAttach msgText with
  | none => (msgText, none)
  | some (pos, len, g) =>
    match g with
    | some fname =>
      if fname = [] then (msgText, none)
      else
        match lookupMap map fname with
        | some att =>
          (trimChars (replaceFirst msgText ((msgText.drop pos).take len)), some att)
        | none => (msgText, none)
    | none => (msgText, none)

/-- Build one `Message` from a header and the raw body segment between
this header and the next (or the end of text). -/
def mkParsedMessage (h : Header) (body : List Char) (map : AttachmentMap) :
    Message :=
  let r := resolveBody (trimChars body) map
  ⟨h.date, h.time, h.sender, r.1, r.2⟩

/-- The `while` loop of `parseMessages` after the first header has been
found: each further header match closes the previous message's body; the
final message's body is the remaining text.  `fuel` bounds the iteration
count; since each step consumes at least the header match, `rest.length`
steps always suffice, and on exhausted fuel the loop closes the last
message exactly as the no-further-match case does. -/
def parseLoop : Nat → Header → List Char → AttachmentMap → List Message
  | 0, h, rest, map => [mkParsedMessage h rest map]
  | fuel + 1, h, rest, map =>
    match findMatchSplit rest with
    | none => [mkParsedMessage h rest map]
    | some (pre, h2, rest2) => mkParsedMessage h pre map :: parseLoop fuel h2 rest2 map

/-- `parseMessages`: scan for all header matches; text before the first
header is discarded; each match yields one message whose body is the
segment up to the next match. -/
def parseMessages (text : List Char) (map : AttachmentMap) : List Message :=
  match findMatchSplit text with
  | none => []
  | some (_, h, rest) => parseLoop rest.length h rest map

/-- The header occurrences of a transcript, in scan order (the same
left-to-right `exec` scan `parseMessages` performs). -/
def headerLoop : Nat → Header → List Char → List Header
  | 0, h, _ => [h]
  | fuel + 1, h, rest =>
    match findMatchSplit rest with
    | none => [h]
    | some (_, h2, rest2) => h :: headerLoop fuel h2 rest2

/-- All header-pattern matches of the transcript, in transcript order. -/
def headerMatches (text : List Char) : List Header :=
  match findMatchSplit text with
  | none => []
  | some (_, h, rest) => headerLoop rest.length h rest

/-- The (date, time, sender) triple of a message. -/
def msgHeader (m : Message) : Header := ⟨m.date, m.time, m.sender⟩

/-- The matching predicate of `performSearch`: case-insensitive
substring match of the term against the message text or sender. -/
def msgMatches (m : Message) (term : List Char) : Bool :=
  includesList (lcList m.text) (lcList term) ||
  includesList (lcList m.sender) (lcList term)

/-- The index-collecting `forEach` loop of `performSearch`. -/
def searchIndices (msgs : List Message) (term : List Char) : List Nat :=
  (List.range msgs.length).filter (fun i =>
    match msgs.get? i with
    | some m => msgMatches m term
    | none => false)

/-- The pure core of `performSearch`: the result list and the cursor it
installs (`-1` denoting "no selection"). -/
def performSearchFn (msgs : List Message) (term : List Char) :
    List Nat × Int :=
  if trimChars term = [] then ([], -1)
  else
    let results := searchIndices msgs term
    (results, if results.length > 0 then 0 else -1)

/-- JavaScript's `%` on numbers at integer arguments: truncated
remainder. -/
def jsMod (a b : Int) : Int := Int.tmod a b

/-- The dimension computation of `generateThumbnail`: clamp the longer
side to the bound and scale the shorter proportionally.  JavaScript
number arithmetic is idealised as exact rational arithmetic. -/
def thumbDims (w h maxWidth maxHeight : ℚ) : ℚ × ℚ :=
  if w > h then
    if w > maxWidth then (maxWidth, h * maxWidth / w) else (w, h)
  else
    if h > maxHeight then (w * maxHeight / h, maxHeight) else (w, h)

/-- A zip entry as the model sees it: its name, whether it is a
directory entry, whether `zipEntry.async` succeeds, whether thumbnail
derivation succeeds, and the payload size. -/
structure ZipEntry where
  name : List Char
  isDir : Bool
  extractOk : Bool
  thumbOk : Bool
  size : Nat
deriving DecidableEq

/-- The input handed to `processZipFile`: either bytes `JSZip.loadAsync`
rejects, or a loaded archive with its entry list, the text of
`_chat.txt` and whether reading that text succeeds. -/
inductive ZipInput where
  | invalid : ZipInput
  | valid (entries : List ZipEntry) (chatText : List Char) (chatOk : Bool) : ZipInput
deriving DecidableEq

/-- A persisted record (the `SavedChat` interface). -/
structure SavedChat where
  id : Nat
  name : List Char
  timestamp : Nat
  messageCount : Nat
  participants : List (List Char)
  zipBlob : ZipInput
deriving DecidableEq

/-- Modelled from the spec: the IndexedDB object store that `openDB`
creates with `keyPath: 'id'` and that `saveChat` writes through
`store.put` is the browser's, not this repository's; §4.4 specifies
`put(archive)` as insert-or-overwrite by `id`.  The store is a record
list in insertion order. -/
def putChat (c : SavedChat) (s : List SavedChat) : List SavedChat :=
  if s.any (fun x => x.id = c.id) then
    s.map (fun x => if x.id = c.id then c else x)
  else s ++ [c]

/-- Modelled from the spec: `getAll()` returns every record of the
store. -/
def getAllChats (s : List SavedChat) : List SavedChat := s

/-- Strip a case-insensitive `.zip` suffix (`fileName.replace(/\.zip$/i, '')`). -/
def stripZipExt (cs : List Char) : List Char :=
  if startsWithList (lcList (strL "piz.")) (lcList cs).reverse then
    cs.take (cs.length - 4)
  else cs

/-- Find the leftmost occurrence of `lit` (case-insensitively) that is
followed by at least one `.`-character, and return the greedy `(.+)`
capture after it; this is `nameWithoutExt.match(/LIT(.+)/i)`. -/
def findLitGroup (lit : List Char) (cs : List Char) : Option (List Char) :=
  match matchLitCI lit cs with
  | some (c :: rest) =>
    if dotChar c then some ((c :: rest).takeWhile dotChar)
    else
      match cs with
      | [] => none
      | _ :: t => findLitGroup lit t
  | _ =>
    match cs with
    | [] => none
    | _ :: t => findLitGroup lit t

/-- `extractChatName`: strip the `.zip` extension, then try the three
`WhatsApp …` patterns in order, returning the trimmed capture of the
first that matches (and is nonempty), else the trimmed base name. -/
def extractChatName (fileName : List Char) : List Char :=
  let base := stripZipExt fileName
  match findLitGroup (strL "WhatsApp Chat - ") base with
  | some g => trimChars g
  | none =>
    match findLitGroup (strL "WhatsApp Chat with ") base with
    | some g => trimChars g
    | none =>
      match findLitGroup (strL "WhatsApp ") base with
      | some g => trimChars g
      | none => trimChars base

/-- `[...new Set(l)]`: deduplicate keeping first occurrences in order. -/
def dedupFirst : List (List Char) → List (List Char) → List (List Char)
  | [], _ => []
  | x :: t, seen =>
    if x ∈ seen then dedupFirst t seen else x :: dedupFirst t (x :: seen)

/-- Stable descending insertion by `timestamp`
(`chats.sort((a, b) => b.timestamp - a.timestamp)`). -/
def insertByTimestamp (c : SavedChat) : List SavedChat → List SavedChat
  | [] => [c]
  | x :: t =>
    if c.timestamp ≤ x.timestamp then x :: insertByTimestamp c t
    else c :: x :: t

/-- Sort saved chats by timestamp descending, stably. -/
def sortByTimestamp : List SavedChat → List SavedChat
  | [] => []
  | x :: t => insertByTimestamp x (sortByTimestamp t)

/-- The component state of `Home` that the modelled handlers touch.
Blob URLs are numeric handles: `nextUrl` is the issue counter, `blobUrls`
is the `blobUrls.current` array and `revoked` records every handle passed
to `URL.revokeObjectURL`.  `store` is the IndexedDB contents, `saveOk`
whether the next write succeeds, and `now` the frozen `Date.now()`
clock. -/
structure AppState where
  allMessages : List Message
  blobUrls : List Nat
  revoked : List Nat
  nextUrl : Nat
  searchTerm : List Char
  searchResults : List Nat
  currentSearchIndex : Int
  allSenders : List (List Char)
  currentUser : List Char
  savedUsername : List Char
  currentChatId : Option Nat
  currentChatName : List Char
  loading : Bool
  showMediaPanel : Bool
  savedChats : List SavedChat
  store : List SavedChat
  saveOk : Bool
  now : Nat
deriving DecidableEq

/-- The `_chat.txt` transcript entry name. -/
def chatFileName : List Char := strL "_chat.txt"

/-- `contents.file('_chat.txt')` is non-null: some non-directory entry
has the transcript name. -/
def chatPresent (entries : List ZipEntry) : Bool :=
  entries.any (fun e => e.name = chatFileName && !e.isDir)

/-- The extraction `for` loop of `processZipFile`: skip the transcript
and directory entries; for each remaining entry create a blob URL,
derive a thumbnail for image/sticker/video entries when derivation
succeeds (failures are caught and leave `thumbnailUrl` absent), and
insert the attachment into the map.  A failing `zipEntry.async` throws,
carrying out the urls issued so far. -/
def extractEntries : List ZipEntry → List Nat → Nat → AttachmentMap →
    Except (List Nat × Nat) (List Nat × Nat × AttachmentMap)
  | [], urls, next, map => .ok (urls, next, map)
  | e :: es, urls, next, map =>
    if e.name = chatFileName ∨ e.isDir = true then
      extractEntries es urls next map
    else if e.extractOk = false then .error (urls, next)
    else
      let ty := getAttachmentType e.name
      let withThumb :=
        (ty = AttachType.image ∨ ty = AttachType.sticker ∨ ty = AttachType.video) ∧
          e.thumbOk = true
      if withThumb then
        extractEntries es (urls ++ [next, next + 1]) (next + 2)
          (setMap map e.name ⟨e.name, ty, next, e.size, some (next + 1)⟩)
      else
        extractEntries es (urls ++ [next]) (next + 1)
          (setMap map e.name ⟨e.name, ty, next, e.size, none⟩)

/-- `processZipFile`: reset search state and set the loading flag; bail
out (caught or early-returned) if the bundle is invalid or `_chat.txt`
is missing; otherwise revoke the previous session's blob URLs, extract
every attachment, parse the transcript, install the parsed session and,
for a fresh upload, persist it (a failing write is caught after the
session is already installed). -/
def processZipFile (s : AppState) (file : ZipInput) (fileName : List Char)
    (chatId : Option Nat) (chatName : Option (List Char)) : AppState :=
  let s0 := { s with loading := true, searchTerm := [], searchResults := [],
                     currentSearchIndex := -1 }
  match file with
  | .invalid => { s0 with loading := false }
  | .valid entries chatText chatOk =>
    if chatPresent entries = false then { s0 with loading := false }
    else
      let s1 := { s0 with revoked := s0.revoked ++ s0.blobUrls, blobUrls := [] }
      match extractEntries entries [] s1.nextUrl [] with
      | .error (urls, nxt) =>
        { s1 with blobUrls := urls, nextUrl := nxt, loading := false }
      | .ok (urls, nxt, map) =>
        let s2 := { s1 with blobUrls := urls, nextUrl := nxt }
        if chatOk = false then { s2 with loading := false }
        else
          let parsed := parseMessages chatText map
          let senders := dedupFirst (parsed.map (fun m => trimChars m.sender)) []
          let s3 := { s2 with
            allMessages := parsed, allSenders := senders,
            currentUser :=
              if s2.savedUsername ≠ [] ∧ s2.savedUsername ∈ senders then
                s2.savedUsername
              else [] }
          match chatId with
          | none =>
            if s3.saveOk = false then { s3 with loading := false }
            else
              let extractedName :=
                match chatName with
                | some n => if n = [] then extractChatName fileName else n
                | none => extractChatName fileName
              let rec1 : SavedChat :=
                ⟨s3.now, extractedName, s3.now, parsed.length, senders, file⟩
              let store1 := putChat rec1 s3.store
              { s3 with store := store1, savedChats := sortByTimestamp store1,
                        currentChatId := some s3.now,
                        currentChatName := extractedName, loading := false }
          | some cid =>
            { s3 with currentChatId := some cid,
                      currentChatName := chatName.getD [], loading := false }

/-- `handleBackToHome`: clear the session, reset search state and revoke
every blob URL of the closed session. -/
def handleBackToHome (s : AppState) : AppState :=
  { s with allMessages := [], currentChatId := none, currentChatName := [],
           currentUser := [], allSenders := [], searchTerm := [],
           searchResults := [], currentSearchIndex := -1,
           showMediaPanel := false,
           revoked := s.revoked ++ s.blobUrls, blobUrls := [] }

/-- `performSearch` acting on the component state. -/
def performSearchOn (s : AppState) : AppState :=
  let r := performSearchFn s.allMessages s.searchTerm
  { s with searchResults := r.1, currentSearchIndex := r.2 }

/-- `nextSearchResult`: circular advance, no-op on an empty result
list. -/
def nextSearchResult (s : AppState) : AppState :=
  if s.searchResults.length = 0 then s
  else
    let nextIndex := jsMod (s.currentSearchIndex + 1) (s.searchResults.length : Int)
    { s with currentSearchIndex := nextIndex }

/-- `prevSearchResult`: circular retreat, no-op on an empty result
list. -/
def prevSearchResult (s : AppState) : AppState :=
  if s.searchResults.length = 0 then s
  else
    let prevIndex :=
      jsMod (s.currentSearchIndex - 1 + (s.searchResults.length : Int))
        (s.searchResults.length : Int)
    { s with currentSearchIndex := prevIndex }

/-- The user-triggered operations whose interleavings claim C10 ranges
over. -/
inductive Op where
  | doSearch (term : List Char)
  | doNext
  | doPrev
  | doLoad (file : ZipInput) (fileName : List Char) (chatId : Option Nat)
      (chatName : Option (List Char))
  | doBack
deriving DecidableEq

/-- One operation applied to the state (`doSearch` models typing a term
and pressing Enter). -/
def stepOp (s : AppState) : Op → AppState
  | .doSearch t => performSearchOn { s with searchTerm := t }
  | .doNext => nextSearchResult s
  | .doPrev => prevSearchResult s
  | .doLoad f n cid cn => processZipFile s f n cid cn
  | .doBack => handleBackToHome s

/-- The state on mount: no session, no search, the saved username read
from `localStorage`. -/
def initialState (username : List Char) (saveOk : Bool) (now : Nat) : AppState :=
  ⟨[], [], [], 0, [], [], -1, [], [], username, none, [], false, false, [], [],
   saveOk, now⟩

/-- Run a sequence of operations from the initial state. -/
def runOps (username : List Char) (saveOk : Bool) (now : Nat)
    (ops : List Op) : AppState :=
  ops.foldl stepOp (initialState username saveOk now)

/-- Whether the attachment marker found in a message body (if any)
fails to resolve: no captured filename, a falsy captured filename, or a
filename absent from the attachment map. -/
def attachmentUnresolved (body : List Char) (map : AttachmentMap) : Bool :=
  match findAttach body with
  | none => false
  | some (_, _, none) => true
  | some (_, _, some f) => f = [] || (lookupMap map f).isNone

/-- Demo message: Alice says Hello. -/
def demoMsg1 : Message := ⟨strL "1/1/24", strL "10:00", strL "Alice", strL "Hello", none⟩

/-- Demo message: Bob says Hi there. -/
def demoMsg2 : Message := ⟨strL "1/1/24", strL "10:01", strL "Bob", strL "Hi there", none⟩

/-- A two-message demo list. -/
def demoMsgs : List Message := [demoMsg1, demoMsg2]

/-- The media-excluded one-message transcript of spec Example 3. -/
def mediaOmittedT : List Char := strL "[1/1/24, 10:00] Alice: <Media omitted>"

/-- A prior session holding one message whose attachment handle is blob
URL 5. -/
def cexPrevState : AppState :=
  { initialState [] true 0 with allMessages := [demoMsg1], blobUrls := [5], nextUrl := 6 }

/-- A structurally valid archive with `_chat.txt` present whose first
attachment entry fails to extract. -/
def cexZip : ZipInput :=
  .valid [⟨strL "a.jpg", false, false, true, 3⟩,
          ⟨strL "_chat.txt", false, true, true, 9⟩]
    (strL "[1/1/24, 10:00] Alice: Hi") true

/-- A valid single-message archive that loads successfully. -/
def demoZip : ZipInput :=
  .valid [⟨strL "_chat.txt", false, true, true, 9⟩]
    (strL "[1/1/24, 10:00] Alice: Hello") true

/-- A state with two search results and the cursor on the second. -/
def navState : AppState :=
  { initialState [] true 0 with searchResults := [0, 1], currentSearchIndex := 1 }

/-- The search-cursor invariant of claim C10: the cursor is -1 exactly
when there are no results, an existing cursor is a valid index into the
result sequence, and every result is a valid message index. -/
def SearchInv (s : AppState) : Prop :=
  (s.currentSearchIndex = -1 ↔ s.searchResults = []) ∧
  (s.searchResults ≠ [] →
    0 ≤ s.currentSearchIndex ∧
    s.currentSearchIndex < (s.searchResults.length : Int)) ∧
  (∀ i ∈ s.searchResults, i < s.allMessages.length)

/-- Claim C4: `getAttachmentType` is a pure total function of the
case-insensitive extension with precedence image, video, audio over the
case-insensitive "sticker" substring fallback and `document` default,
agreeing with the spec's `classify`; in particular
`IMG-20240101-sticker.webp` classifies as `image`, not `sticker`. -/
theorem getAttachmentType_matches_spec (filename : List Char) :
    getAttachmentType filename = specClassify filename ∧
    getAttachmentType (strL "IMG-20240101-sticker.webp") = AttachType.image := by
  exact ⟨rfl, by decide⟩

/-- `put` on a store already containing the key overwrites in place. -/
lemma putChat_pos (c : SavedChat) (t : List SavedChat)
    (h : t.any (fun x => x.id = c.id) = true) :
    putChat c t = t.map (fun x => if x.id = c.id then c else x) := by
  unfold putChat
  rw [if_pos h]

/-- `put` on a store missing the key appends. -/
lemma putChat_neg (c : SavedChat) (t : List SavedChat)
    (h : ¬ t.any (fun x => x.id = c.id) = true) :
    putChat c t = t ++ [c] := by
  unfold putChat
  rw [if_neg h]

/-- Claim C8: `put` keyed by `id` is idempotent — repeating an identical
`put` overwrites rather than duplicates, leaving the store and hence the
`getAll` record count unchanged. -/
theorem putChat_idempotent (c : SavedChat) (s : List SavedChat) :
    putChat c (putChat c s) = putChat c s ∧
    (getAllChats (putChat c (putChat c s))).length =
      (getAllChats (putChat c s)).length := by
  have key : putChat c (putChat c s) = putChat c s := by
    by_cases hs : s.any (fun x => x.id = c.id) = true
    · have h1 := putChat_pos c s hs
      have hmem : (putChat c s).any (fun x => x.id = c.id) = true := by
        obtain ⟨x, hx, hid⟩ := List.any_eq_true.mp hs
        simp only [decide_eq_true_eq] at hid
        refine List.any_eq_true.mpr ⟨c, ?_, by simp⟩
        rw [h1]
        exact List.mem_map.mpr ⟨x, hx, by simp [hid]⟩
      rw [putChat_pos c _ hmem, h1, List.map_map]
      apply List.map_congr_left
      intro x _
      by_cases hx : x.id = c.id <;> simp [Function.comp, hx]
    · have h1 := putChat_neg c s hs
      have hmem : (putChat c s).any (fun x => x.id = c.id) = true := by
        refine List.any_eq_true.mpr ⟨c, ?_, by simp⟩
        rw [h1]
        exact List.mem_append_right s (List.mem_singleton.mpr rfl)
      have hnone : ∀ x ∈ s, ¬ x.id = c.id := by
        intro x hx hid
        exact hs (List.any_eq_true.mpr ⟨x, hx, by simp [hid]⟩)
      rw [putChat_pos c _ hmem, h1, List.map_append]
      have h2 : s.map (fun x => if x.id = c.id then c else x) = s := by
        conv_rhs => rw [← List.map_id s]
        apply List.map_congr_left
        intro x hx
        simp [hnone x hx]
      simp [h2]
  exact ⟨key, by rw [key]⟩

/-- Claim C6: an empty or whitespace-only term yields the empty result
set with no selection, and every run of `performSearch` resets the
cursor to 0 when results exist and to -1 otherwise. -/
theorem performSearch_reset (msgs : List Message) (t1 t2 : List Char)
    (h : trimChars t1 = []) :
    performSearchFn msgs t1 = ([], -1) ∧
    (performSearchFn msgs t2).2 =
      (if (performSearchFn msgs t2).1 = [] then (-1 : Int) else 0) := by
  constructor
  · simp [performSearchFn, h]
  · unfold performSearchFn
    by_cases h2 : trimChars t2 = []
    · simp [h2]
    · simp only [h2, if_false]
      cases searchIndices msgs t2 <;> simp

/-- Witness for C6 at a whitespace-only and a real term. -/
theorem performSearch_reset_witness :
    trimChars (strL "  ") = [] ∧
    (performSearchFn demoMsgs (strL "  ") = ([], -1) ∧
      (performSearchFn demoMsgs (strL "Alice")).2 =
        (if (performSearchFn demoMsgs (strL "Alice")).1 = [] then (-1 : Int) else 0)) :=
  ⟨by decide, performSearch_reset demoMsgs (strL "  ") (strL "Alice") (by decide)⟩

/-- Claim C9: with max bounds 200×200, the thumbnail dimension
computation keeps both output dimensions at most 200, leaves images
already within bounds unchanged, and clamps the longer dimension to 200
while scaling the other by the same ratio. -/
theorem thumbDims_bounds (w h : ℚ) (hw : 0 < w) (hh : 0 < h) :
    (thumbDims w h 200 200).1 ≤ 200 ∧ (thumbDims w h 200 200).2 ≤ 200 ∧
    (w ≤ 200 → h ≤ 200 → thumbDims w h 200 200 = (w, h)) ∧
    (h < w → 200 < w →
      (thumbDims w h 200 200).1 = 200 ∧
      (thumbDims w h 200 200).2 * w = h * 200) ∧
    (w ≤ h → 200 < h →
      (thumbDims w h 200 200).2 = 200 ∧
      (thumbDims w h 200 200).1 * h = w * 200) := by
  unfold thumbDims
  by_cases h1 : h < w
  · by_cases h2 : 200 < w
    · have hle : h * 200 / w ≤ 200 := by
        rw [div_le_iff₀ hw]
        nlinarith
      refine ⟨?_, ?_, ?_, ?_, ?_⟩
      · simp [show w > h from h1, show w > 200 from h2]
      · simp [show w > h from h1, show w > 200 from h2, hle]
      · intro hw' _
        exact absurd h2 (not_lt.mpr hw')
      · intro _ _
        constructor
        · simp [show w > h from h1, show w > 200 from h2]
        · simp only [show w > h from h1, if_true, show w > 200 from h2]
          exact div_mul_cancel₀ (h * 200) (ne_of_gt hw)
      · intro hwh _
        exact absurd h1 (not_lt.mpr hwh)
    · refine ⟨?_, ?_, ?_, ?_, ?_⟩
      · simp only [show w > h from h1, if_true, show ¬ w > 200 from h2, if_false]
        exact le_of_not_lt h2
      · simp only [show w > h from h1, if_true, show ¬ w > 200 from h2, if_false]
        have := le_of_not_lt h2
        linarith
      · intro _ _
        simp [show w > h from h1, show ¬ w > 200 from h2]
      · intro _ hw'
        exact absurd hw' h2
      · intro hwh _
        exact absurd h1 (not_lt.mpr hwh)
  · by_cases h2 : 200 < h
    · have hle : w * 200 / h ≤ 200 := by
        rw [div_le_iff₀ hh]
        have hwh := le_of_not_lt h1
        nlinarith
      refine ⟨?_, ?_, ?_, ?_, ?_⟩
      · simp [show ¬ w > h from h1, show h > 200 from h2, hle]
      · simp [show ¬ w > h from h1, show h > 200 from h2]
      · intro _ hh'
        exact absurd h2 (not_lt.mpr hh')
      · intro hwh _
        exact absurd hwh (not_lt.mpr (le_of_not_lt h1))
      · intro _ _
        constructor
        · simp [show ¬ w > h from h1, show h > 200 from h2]
        · simp only [show ¬ w > h from h1, if_false, show h > 200 from h2, if_true]
          exact div_mul_cancel₀ (w * 200) (ne_of_gt hh)
    · refine ⟨?_, ?_, ?_, ?_, ?_⟩
      · simp only [show ¬ w > h from h1, if_false, show ¬ h > 200 from h2]
        have hwh := le_of_not_lt h1
        have := le_of_not_lt h2
        linarith
      · simp only [show ¬ w > h from h1, if_false, show ¬ h > 200 from h2, if_false]
        exact le_of_not_lt h2
      · intro _ _
        simp [show ¬ w > h from h1, show ¬ h > 200 from h2]
      · intro hwh _
        exact absurd hwh (not_lt.mpr (le_of_not_lt h1))
      · intro _ hh'
        exact absurd hh' h2

/-- Witness for C9 at a wide 400×100 image. -/
theorem thumbDims_bounds_witness :
    (0 : ℚ) < 400 ∧ (0 : ℚ) < 100 ∧
    ((thumbDims 400 100 200 200).1 ≤ 200 ∧ (thumbDims 400 100 200 200).2 ≤ 200 ∧
      ((400 : ℚ) ≤ 200 → (100 : ℚ) ≤ 200 → thumbDims 400 100 200 200 = (400, 100)) ∧
      ((100 : ℚ) < 400 → (200 : ℚ) < 400 →
        (thumbDims 400 100 200 200).1 = 200 ∧
        (thumbDims 400 100 200 200).2 * 400 = 100 * 200) ∧
      ((400 : ℚ) ≤ 100 → (200 : ℚ) < 100 →
        (thumbDims 400 100 200 200).2 = 200 ∧
        (thumbDims 400 100 200 200).1 * 100 = 400 * 200)) :=
  ⟨by norm_num, by norm_num,
    thumbDims_bounds 400 100 (by norm_num) (by norm_num)⟩

/-- Counterexample to claim C1 as stated: the one-message transcript
whose body is exactly the unresolvable marker yields a message with no
attachment but with text equal to the full marker — not the empty
string the claim requires — because the source only strips the marker
in the branch where the attachment resolves. -/
theorem parseMessages_keeps_marker :
    (parseMessages mediaOmittedT []).map (fun m => (m.text, m.attachment)) =
      [(strL "<Media omitted>", none)] ∧
    strL "<Media omitted>" ≠ ([] : List Char) := by
  decide

/-- Claim C1 (amended): when a message body's attachment marker cannot
be resolved — `<attached: FILENAME>` with FILENAME absent from the map,
or `<Media omitted>` with no filename — the message gets no attachment
and its text is the full trimmed body with the marker retained (not
stripped); in particular the `<Media omitted>` transcript with an empty
map yields text `<Media omitted>`. -/
theorem resolveBody_unresolved (body : List Char) (map : AttachmentMap)
    (h : attachmentUnresolved body map = true) :
    resolveBody body map = (body, none) ∧
    parseMessages mediaOmittedT [] =
      [⟨strL "1/1/24", strL "10:00", strL "Alice", strL "<Media omitted>", none⟩] := by
  refine ⟨?_, by decide⟩
  unfold attachmentUnresolved at h
  unfold resolveBody
  cases hf : findAttach body with
  | none => rfl
  | some p =>
    obtain ⟨pos, len, g⟩ := p
    rw [hf] at h
    cases g with
    | none => rfl
    | some fname =>
      simp only [Bool.or_eq_true, decide_eq_true_eq, Option.isNone_iff_eq_none] at h
      rcases h with h | h
      · simp [h]
      · by_cases he : fname = []
        · simp [he]
        · simp [he, h]

/-- Witness for C1 (amended): an `<attached: …>` marker whose filename
is missing from an empty attachment map. -/
theorem resolveBody_unresolved_witness :
    attachmentUnresolved (strL "<attached: x.png>") [] = true ∧
    (resolveBody (strL "<attached: x.png>") [] = (strL "<attached: x.png>", none) ∧
      parseMessages mediaOmittedT [] =
        [⟨strL "1/1/24", strL "10:00", strL "Alice", strL "<Media omitted>", none⟩]) :=
  ⟨by decide, resolveBody_unresolved (strL "<attached: x.png>") [] (by decide)⟩

/-- Counterexample to claim C7 as stated: for the empty term, the
matching predicate holds of every message (the empty string is a
substring of everything) yet `performSearch` returns no results, so
"matches iff substring" fails for at least one term. -/
theorem performSearch_empty_term_mismatch :
    (performSearchFn demoMsgs []).1 = [] ∧
    msgMatches demoMsg1 [] = true ∧ demoMsgs ≠ [] := by
  decide

/-- Case-insensitively equal terms search identically. -/
lemma searchIndices_congr (msgs : List Message) {t1 t2 : List Char}
    (h : lcList t1 = lcList t2) :
    searchIndices msgs t1 = searchIndices msgs t2 := by
  unfold searchIndices
  apply List.filter_congr
  intro i _
  cases msgs.get? i with
  | none => rfl
  | some m => simp [msgMatches, h]

/-- Claim C7 (amended): for every term that is not whitespace-only, a
message index is in the result sequence iff the term is a
case-insensitive substring of that message's text or sender; and
searching for "Foo" and "foo" gives identical results for every message
list. -/
theorem performSearch_matching (msgs : List Message) (term : List Char)
    (h : trimChars term ≠ []) :
    (∀ i : Nat, i ∈ (performSearchFn msgs term).1 ↔
      ∃ m, msgs.get? i = some m ∧ msgMatches m term = true) ∧
    performSearchFn msgs (strL "Foo") = performSearchFn msgs (strL "foo") := by
  constructor
  · intro i
    unfold performSearchFn
    simp only [h, if_false]
    unfold searchIndices
    rw [List.mem_filter]
    constructor
    · rintro ⟨hr, hp⟩
      cases hg : msgs.get? i with
      | none => rw [hg] at hp; exact absurd hp (by simp)
      | some m =>
        rw [hg] at hp
        exact ⟨m, rfl, hp⟩
    · rintro ⟨m, hg, hm⟩
      have hlt : i < msgs.length := (List.get?_eq_some.mp hg).1
      refine ⟨List.mem_range.mpr hlt, ?_⟩
      rw [hg]
      exact hm
  · have hfoo : lcList (strL "Foo") = lcList (strL "foo") := by decide
    have h1 : trimChars (strL "Foo") = [] ↔ trimChars (strL "foo") = [] := by decide
    unfold performSearchFn
    rw [searchIndices_congr msgs hfoo]
    have h2 : trimChars (strL "Foo") ≠ [] := by decide
    have h3 : trimChars (strL "foo") ≠ [] := by decide
    simp [h2, h3]

/-- Witness for C7 (amended) at the term "Alice". -/
theorem performSearch_matching_witness :
    trimChars (strL "Alice") ≠ [] ∧
    ((∀ i : Nat, i ∈ (performSearchFn demoMsgs (strL "Alice")).1 ↔
      ∃ m, demoMsgs.get? i = some m ∧ msgMatches m (strL "Alice") = true) ∧
      performSearchFn demoMsgs (strL "Foo") = performSearchFn demoMsgs (strL "foo")) :=
  ⟨by decide, performSearch_matching demoMsgs (strL "Alice") (by decide)⟩

/-- Each parse-loop message carries exactly the header of the
corresponding scan match, in scan order. -/
lemma parseLoop_map (map : AttachmentMap) :
    ∀ (fuel : Nat) (h : Header) (rest : List Char),
      (parseLoop fuel h rest map).map msgHeader = headerLoop fuel h rest := by
  intro fuel
  induction fuel with
  | zero =>
    intro h rest
    simp [parseLoop, headerLoop, mkParsedMessage, msgHeader]
  | succ n ih =>
    intro h rest
    simp only [parseLoop, headerLoop]
    cases findMatchSplit rest with
    | none => simp [mkParsedMessage, msgHeader]
    | some p =>
      obtain ⟨pre, h2, rest2⟩ := p
      simp [mkParsedMessage, msgHeader, ih]

/-- Claim C3: `parseMessages` yields exactly one message per
header-pattern match of the transcript, in transcript order (its
header triples are precisely the scan's match list), and a transcript
with zero header matches yields the empty sequence rather than an
error; text before the first header contributes no message. -/
theorem parseMessages_headers (text : List Char) (map : AttachmentMap) :
    (parseMessages text map).map msgHeader = headerMatches text ∧
    (parseMessages text map = [] ↔ headerMatches text = []) := by
  have key : (parseMessages text map).map msgHeader = headerMatches text := by
    unfold parseMessages headerMatches
    cases findMatchSplit text with
    | none => rfl
    | some p =>
      obtain ⟨pre, h, rest⟩ := p
      exact parseLoop_map map rest.length h rest
  refine ⟨key, ?_, ?_⟩
  · intro he
    rw [he] at key
    exact key.symm
  · intro he
    rw [he] at key
    exact List.map_eq_nil_iff.mp key

/-- JavaScript `%` agrees with mathematical `emod` on a nonnegative
left operand and a natural modulus. -/
lemma jsMod_eq_emod (a : Int) (n : Nat) (ha : 0 ≤ a) :
    jsMod a (n : Int) = a % (n : Int) := by
  obtain ⟨m, rfl⟩ := Int.eq_ofNat_of_zero_le ha
  unfold jsMod
  rfl

/-- Bounds of `jsMod` under the same side conditions. -/
lemma jsMod_bounds (a : Int) (n : Nat) (ha : 0 ≤ a) (hn : 0 < n) :
    0 ≤ jsMod a (n : Int) ∧ jsMod a (n : Int) < (n : Int) := by
  rw [jsMod_eq_emod a n ha]
  have hn' : (0 : Int) < (n : Int) := by exact_mod_cast hn
  exact ⟨Int.emod_nonneg a (ne_of_gt hn'), Int.emod_lt_of_pos a hn'⟩

/-- `nextSearchResult` on a state with results: the installed cursor. -/
lemma nextSearchResult_idx (s : AppState) (hne : s.searchResults ≠ []) :
    (nextSearchResult s).currentSearchIndex =
      jsMod (s.currentSearchIndex + 1) (s.searchResults.length : Int) := by
  unfold nextSearchResult
  rw [if_neg (fun h0 => hne (List.length_eq_zero.mp h0))]

/-- `nextSearchResult` never changes the result list. -/
lemma nextSearchResult_results (s : AppState) :
    (nextSearchResult s).searchResults = s.searchResults := by
  unfold nextSearchResult
  by_cases h : s.searchResults.length = 0
  · rw [if_pos h]
  · rw [if_neg h]

/-- `prevSearchResult` on a state with results: the installed cursor. -/
lemma prevSearchResult_idx (s : AppState) (hne : s.searchResults ≠ []) :
    (prevSearchResult s).currentSearchIndex =
      jsMod (s.currentSearchIndex - 1 + (s.searchResults.length : Int))
        (s.searchResults.length : Int) := by
  unfold prevSearchResult
  rw [if_neg (fun h0 => hne (List.length_eq_zero.mp h0))]

/-- Iterating `nextSearchResult` walks the cursor through
`(c + k) mod n`, keeping the result list fixed. -/
lemma nextSearchResult_iter (k : Nat) :
    ∀ s : AppState, s.searchResults ≠ [] → 0 ≤ s.currentSearchIndex →
      s.currentSearchIndex < (s.searchResults.length : Int) →
      (nextSearchResult^[k] s).searchResults = s.searchResults ∧
      (nextSearchResult^[k] s).currentSearchIndex =
        (s.currentSearchIndex + (k : Int)) % (s.searchResults.length : Int) := by
  induction k with
  | zero =>
    intro s hne h0 hlt
    refine ⟨by simp, ?_⟩
    simp only [Function.iterate_zero, id_eq]
    rw [show ((0 : Nat) : Int) = 0 from rfl, Int.add_zero,
       Int.emod_eq_of_lt h0 hlt]
  | succ k ih =>
    intro s hne h0 hlt
    obtain ⟨hres, hidx⟩ := ih s hne h0 hlt
    have hn' : (0 : Int) < (s.searchResults.length : Int) := by
      exact_mod_cast List.length_pos.mpr hne
    have hidx0 : 0 ≤ (nextSearchResult^[k] s).currentSearchIndex := by
      rw [hidx]
      exact Int.emod_nonneg _ (ne_of_gt hn')
    have hune : (nextSearchResult^[k] s).searchResults ≠ [] := by
      rw [hres]
      exact hne
    rw [Function.iterate_succ_apply']
    refine ⟨by rw [nextSearchResult_results, hres], ?_⟩
    rw [nextSearchResult_idx _ hune, hres,
       jsMod_eq_emod _ _ (by positivity), hidx]
    push_cast
    rw [Int.emod_add_emod, Int.add_assoc]

/-- `(c + n) % n = c` for a cursor `c` within `[0, n)`. -/
lemma emod_add_cancel (c : Int) (n : Nat) (h0 : 0 ≤ c)
    (hlt : c < (n : Int)) : (c + (n : Int)) % (n : Int) = c := by
  rw [show c + (n : Int) = c + (n : Int) * 1 by ring,
     Int.add_mul_emod_self_left, Int.emod_eq_of_lt h0 hlt]

/-- Claim C5: with a non-empty result sequence and a cursor within
bounds, `next` advances to `(cursor+1) mod resultCount`, `prev` retreats
to `(cursor-1+resultCount) mod resultCount`, and `resultCount`
applications of `next` return the cursor to its start; on an empty
result sequence both operations are no-ops. -/
theorem searchNav_circular (s t : AppState) (hne : s.searchResults ≠ [])
    (h0 : 0 ≤ s.currentSearchIndex)
    (hlt : s.currentSearchIndex < (s.searchResults.length : Int))
    (hte : t.searchResults = []) :
    (nextSearchResult s).currentSearchIndex =
      jsMod (s.currentSearchIndex + 1) (s.searchResults.length : Int) ∧
    (prevSearchResult s).currentSearchIndex =
      jsMod (s.currentSearchIndex - 1 + (s.searchResults.length : Int))
        (s.searchResults.length : Int) ∧
    (nextSearchResult^[s.searchResults.length] s).currentSearchIndex =
      s.currentSearchIndex ∧
    nextSearchResult t = t ∧ prevSearchResult t = t := by
  refine ⟨nextSearchResult_idx s hne, prevSearchResult_idx s hne, ?_, ?_, ?_⟩
  · obtain ⟨_, hidx⟩ :=
      nextSearchResult_iter s.searchResults.length s hne h0 hlt
    rw [hidx, emod_add_cancel _ _ h0 hlt]
  · unfold nextSearchResult
    rw [if_pos (by rw [hte]; rfl)]
  · unfold prevSearchResult
    rw [if_pos (by rw [hte]; rfl)]

/-- Witness for C5: on a two-result state with cursor 1, two
applications of `next` return the cursor to 1, and `next` is a no-op on
the empty initial state. -/
theorem searchNav_circular_witness :
    (nextSearchResult^[2] navState).currentSearchIndex = 1 ∧
    nextSearchResult (initialState [] true 0) = initialState [] true 0 :=
  ⟨(searchNav_circular navState (initialState [] true 0)
      (by decide) (by decide) (by decide) rfl).2.2.1,
   (searchNav_circular navState (initialState [] true 0)
      (by decide) (by decide) (by decide) rfl).2.2.2.1⟩

/-- Counterexample to claim C2 as stated: loading an archive whose
first attachment entry fails to extract (a failing load step) onto a
session holding one message with blob handle 5 leaves the message
sequence in place but revokes handle 5 — the prior session's attachment
handles are not left untouched, because `processZipFile` revokes all
previous blob URLs before extraction begins. -/
theorem processZipFile_revokes_on_failure :
    (processZipFile cexPrevState cexZip (strL "chat.zip") none none).allMessages =
      cexPrevState.allMessages ∧
    cexPrevState.blobUrls = [5] ∧ cexPrevState.revoked = [] ∧
    (processZipFile cexPrevState cexZip (strL "chat.zip") none none).revoked = [5] ∧
    (processZipFile cexPrevState cexZip (strL "chat.zip") none none).blobUrls = [] := by
  decide

/-- Claim C2 (amended): only for the two early failures — the bundle is
not a valid zip, or `_chat.txt` is missing — is the prior session left
untouched (messages, blob handles, senders, user, chat identity, store
and saved list all unchanged, nothing revoked); a failure during or
after extraction occurs with the prior session's blob URLs already
revoked, so its attachment handles are not preserved. -/
theorem processZipFile_early_failure_preserves (s : AppState) (file : ZipInput)
    (fileName : List Char) (chatId : Option Nat) (chatName : Option (List Char))
    (h : file = ZipInput.invalid ∨
      ∃ es ct co, file = ZipInput.valid es ct co ∧ chatPresent es = false) :
    (processZipFile s file fileName chatId chatName).allMessages = s.allMessages ∧
    (processZipFile s file fileName chatId chatName).blobUrls = s.blobUrls ∧
    (processZipFile s file fileName chatId chatName).revoked = s.revoked ∧
    (processZipFile s file fileName chatId chatName).allSenders = s.allSenders ∧
    (processZipFile s file fileName chatId chatName).currentUser = s.currentUser ∧
    (processZipFile s file fileName chatId chatName).currentChatId = s.currentChatId ∧
    (processZipFile s file fileName chatId chatName).currentChatName = s.currentChatName ∧
    (processZipFile s file fileName chatId chatName).store = s.store ∧
    (processZipFile s file fileName chatId chatName).savedChats = s.savedChats ∧
    (processZipFile s file fileName chatId chatName).nextUrl = s.nextUrl := by
  rcases h with h | ⟨es, ct, co, h, hcp⟩ <;> subst h
  · simp [processZipFile]
  · simp [processZipFile, hcp]

/-- Witness for C2 (amended): loading invalid bytes onto the demo prior
state. -/
theorem processZipFile_early_failure_witness :
    (ZipInput.invalid = ZipInput.invalid ∨
      ∃ es ct co, ZipInput.invalid = ZipInput.valid es ct co ∧ chatPresent es = false) ∧
    (processZipFile cexPrevState .invalid (strL "chat.zip") none none).allMessages =
      cexPrevState.allMessages ∧
    (processZipFile cexPrevState .invalid (strL "chat.zip") none none).blobUrls =
      cexPrevState.blobUrls :=
  ⟨Or.inl rfl,
    (processZipFile_early_failure_preserves cexPrevState .invalid
      (strL "chat.zip") none none (Or.inl rfl)).1,
    (processZipFile_early_failure_preserves cexPrevState .invalid
      (strL "chat.zip") none none (Or.inl rfl)).2.1⟩

/-- Every search result index is a valid message index. -/
lemma searchIndices_lt (msgs : List Message) (t : List Char) :
    ∀ i ∈ searchIndices msgs t, i < msgs.length := by
  intro i hi
  unfold searchIndices at hi
  exact List.mem_range.mp (List.mem_filter.mp hi).1

/-- `performSearch` establishes the cursor invariant from any state. -/
lemma performSearchOn_inv (s : AppState) : SearchInv (performSearchOn s) := by
  unfold performSearchOn performSearchFn
  by_cases ht : trimChars s.searchTerm = []
  · simp [ht, SearchInv]
  · simp only [ht, if_false]
    refine ⟨?_, ?_, ?_⟩
    · cases hr : searchIndices s.allMessages s.searchTerm <;> simp [hr]
    · intro hne
      cases hr : searchIndices s.allMessages s.searchTerm with
      | nil => rw [hr] at hne; exact absurd rfl hne
      | cons a l => simp [hr]
    · intro i hi
      exact searchIndices_lt s.allMessages s.searchTerm i hi

/-- `allMessages` is untouched by cursor navigation. -/
lemma nextSearchResult_msgs (s : AppState) :
    (nextSearchResult s).allMessages = s.allMessages := by
  unfold nextSearchResult
  by_cases h : s.searchResults.length = 0
  · rw [if_pos h]
  · rw [if_neg h]

/-- `prevSearchResult` never changes the result list or messages. -/
lemma prevSearchResult_frame (s : AppState) :
    (prevSearchResult s).searchResults = s.searchResults ∧
    (prevSearchResult s).allMessages = s.allMessages := by
  unfold prevSearchResult
  by_cases h : s.searchResults.length = 0
  · rw [if_pos h]; exact ⟨rfl, rfl⟩
  · rw [if_neg h]; exact ⟨rfl, rfl⟩

/-- `next` preserves the cursor invariant. -/
lemma nextSearchResult_inv (s : AppState) (h : SearchInv s) :
    SearchInv (nextSearchResult s) := by
  by_cases hne : s.searchResults = []
  · have heq : nextSearchResult s = s := by
      unfold nextSearchResult
      rw [if_pos (by rw [hne]; rfl)]
    rw [heq]
    exact h
  · obtain ⟨hiff, hbounds, hmem⟩ := h
    obtain ⟨h0, hlt⟩ := hbounds hne
    have hn : 0 < s.searchResults.length := List.length_pos.mpr hne
    obtain ⟨hb0, hb1⟩ :=
      jsMod_bounds (s.currentSearchIndex + 1) s.searchResults.length
        (by linarith) hn
    refine ⟨?_, ?_, ?_⟩
    · rw [nextSearchResult_idx s hne, nextSearchResult_results]
      constructor
      · intro hm1
        rw [hm1] at hb0
        exact absurd hb0 (by norm_num)
      · intro hm1
        exact absurd hm1 hne
    · intro _
      rw [nextSearchResult_idx s hne, nextSearchResult_results]
      exact ⟨hb0, hb1⟩
    · intro i hi
      rw [nextSearchResult_results] at hi
      rw [nextSearchResult_msgs]
      exact hmem i hi

/-- `prev` preserves the cursor invariant. -/
lemma prevSearchResult_inv (s : AppState) (h : SearchInv s) :
    SearchInv (prevSearchResult s) := by
  by_cases hne : s.searchResults = []
  · have heq : prevSearchResult s = s := by
      unfold prevSearchResult
      rw [if_pos (by rw [hne]; rfl)]
    rw [heq]
    exact h
  · obtain ⟨hiff, hbounds, hmem⟩ := h
    obtain ⟨h0, hlt⟩ := hbounds hne
    have hn : 0 < s.searchResults.length := List.length_pos.mpr hne
    have hn' : (1 : Int) ≤ (s.searchResults.length : Int) := by exact_mod_cast hn
    obtain ⟨hb0, hb1⟩ :=
      jsMod_bounds (s.currentSearchIndex - 1 + (s.searchResults.length : Int))
        s.searchResults.length (by linarith) hn
    obtain ⟨hfr, hfm⟩ := prevSearchResult_frame s
    refine ⟨?_, ?_, ?_⟩
    · rw [prevSearchResult_idx s hne, hfr]
      constructor
      · intro hm1
        rw [hm1] at hb0
        exact absurd hb0 (by norm_num)
      · intro hm1
        exact absurd hm1 hne
    · intro _
      rw [prevSearchResult_idx s hne, hfr]
      exact ⟨hb0, hb1⟩
    · intro i hi
      rw [hfr] at hi
      rw [hfm]
      exact hmem i hi

/-- Every branch of `processZipFile` leaves the search state as reset
at its entry: no results and no selection. -/
lemma processZipFile_search_reset (s : AppState) (file : ZipInput)
    (fileName : List Char) (chatId : Option Nat) (chatName : Option (List Char)) :
    (processZipFile s file fileName chatId chatName).searchResults = [] ∧
    (processZipFile s file fileName chatId chatName).currentSearchIndex = -1 := by
  unfold processZipFile
  cases file with
  | invalid => exact ⟨rfl, rfl⟩
  | valid es ct co =>
    simp only
    split
    · exact ⟨rfl, rfl⟩
    · split
      · exact ⟨rfl, rfl⟩
      · split
        · exact ⟨rfl, rfl⟩
        · split
          · split
            · exact ⟨rfl, rfl⟩
            · exact ⟨rfl, rfl⟩
          · exact ⟨rfl, rfl⟩

/-- A load preserves (indeed re-establishes) the cursor invariant. -/
lemma processZipFile_inv (s : AppState) (file : ZipInput)
    (fileName : List Char) (chatId : Option Nat) (chatName : Option (List Char)) :
    SearchInv (processZipFile s file fileName chatId chatName) := by
  obtain ⟨hr, hi⟩ := processZipFile_search_reset s file fileName chatId chatName
  refine ⟨by rw [hr, hi]; exact ⟨fun _ => rfl, fun _ => rfl⟩, ?_, ?_⟩
  · intro hne
    exact absurd hr hne
  · intro i hi'
    rw [hr] at hi'
    exact absurd hi' (List.not_mem_nil i)

/-- Returning home resets search state, preserving the invariant. -/
lemma handleBackToHome_inv (s : AppState) : SearchInv (handleBackToHome s) := by
  unfold handleBackToHome SearchInv
  refine ⟨by simp, by simp, by simp⟩

/-- Each operation preserves the cursor invariant. -/
lemma stepOp_inv (s : AppState) (op : Op) (h : SearchInv s) :
    SearchInv (stepOp s op) := by
  cases op with
  | doSearch t => exact performSearchOn_inv _
  | doNext => exact nextSearchResult_inv s h
  | doPrev => exact prevSearchResult_inv s h
  | doLoad f n cid cn => exact processZipFile_inv s f n cid cn
  | doBack => exact handleBackToHome_inv s

/-- The invariant propagates along any operation sequence. -/
lemma foldl_stepOp_inv (ops : List Op) :
    ∀ s : AppState, SearchInv s → SearchInv (ops.foldl stepOp s) := by
  induction ops with
  | nil => intro s h; exact h
  | cons op t ih =>
    intro s h
    exact ih (stepOp s op) (stepOp_inv s op h)

/-- Claim C10: after any sequence of search, next, prev, load and
back-to-home operations from the initial state, the cursor is -1 iff
the result sequence is empty, and otherwise it is a valid index into
the result sequence whose entries are valid message indices. -/
theorem searchCursor_invariant (username : List Char) (saveOk : Bool)
    (now : Nat) (ops : List Op) :
    ((runOps username saveOk now ops).currentSearchIndex = -1 ↔
      (runOps username saveOk now ops).searchResults = []) ∧
    ((runOps username saveOk now ops).searchResults ≠ [] →
      0 ≤ (runOps username saveOk now ops).currentSearchIndex ∧
      (runOps username saveOk now ops).currentSearchIndex <
        ((runOps username saveOk now ops).searchResults.length : Int) ∧
      ∀ i ∈ (runOps username saveOk now ops).searchResults,
        i < (runOps username saveOk now ops).allMessages.length) := by
  have hinit : SearchInv (initialState username saveOk now) := by
    refine ⟨by simp [initialState], ?_, ?_⟩
    · intro hne
      exact absurd rfl hne
    · intro i hi
      exact absurd hi (List.not_mem_nil i)
  obtain ⟨hiff, hbounds, hmem⟩ := foldl_stepOp_inv ops _ hinit
  refine ⟨hiff, ?_⟩
  intro hne
  obtain ⟨h0, h1⟩ := hbounds hne
  exact ⟨h0, h1, fun i hi => hmem i hi⟩

/-- Witness for C10: loading the demo archive then searching "alice"
produces an active search whose cursor is nonnegative. -/
theorem searchCursor_invariant_witness :
    0 ≤ (runOps [] true 0
      [Op.doLoad demoZip (strL "c.zip") none none,
       Op.doSearch (strL "alice")]).currentSearchIndex :=
  ((searchCursor_invariant [] true 0
      [Op.doLoad demoZip (strL "c.zip") none none,
       Op.doSearch (strL "alice")]).2 (by decide)).1

end ZipViewer
